import Mathlib

/-!
Verification of the EOS derived-observable expression engine
(`src/eos/utils/expression-observable.cc` and its header), shallowly
embedded in Lean 4.

Machine doubles are modelled as rationals (`ℚ`); the mutable, shared
parameter/kinematics containers are modelled as stores indexed by
natural-number references inside an explicit `World`; C++ exceptions
become `Except Error` results.  Code of the repository that is not part
of the given sources (the expression visitors, the text parser, the
`Options` merge operator and the container `clone` operations) is
modelled from the specification; each such definition carries a doc
comment starting with `Modelled from the spec:`.
-/

namespace Eos

/-- The failure classes of the engine: the `InternalError` thrown on empty
expression trees (tagged with the site of the throw), a resolution failure
propagated from the observable registry, a `ParsingError`, and the
internal failure of evaluating a still-unbound observable reference. -/
inductive Error where
  | emptyExpression (site : String)
  | resolutionFailure (name : String)
  | parsingFailure (msg : String)
  | unboundLeaf (name : String)
deriving DecidableEq

/-- A keyed store of rational values (the contents of one `Parameters` or
`Kinematics` container). -/
abbrev ValueMap := List (String × ℚ)

/-- A keyed store of string values (the contents of an `Options` container,
and the kinematics/options overrides attached to an observable reference). -/
abbrev StrMap := List (String × String)

/-- Lexicographic comparison of character lists, mirroring the ordering of
`std::string` used by `std::set<std::string>` (byte-wise lexicographic). -/
def listLeb : List Char → List Char → Bool
  | [], _ => true
  | _ :: _, [] => false
  | a :: as, b :: bs => if a < b then true else if b < a then false else listLeb as bs

/-- Lexicographic comparison of strings (the `std::set<std::string>`
ordering). -/
def strLeb (a b : String) : Bool :=
  listLeb a.toList b.toList

/-- The string ordering as a proposition. -/
def strLe (a b : String) : Prop :=
  strLeb a b = true

instance : DecidableRel strLe := fun a b =>
  inferInstanceAs (Decidable (strLeb a b = true))

/-- The mutable, shared containers of the host: parameter containers and
kinematics containers are addressed by natural-number references (`pid`,
`kid`); `pnext`/`knext` are the next fresh references. -/
structure World where
  pstore : Nat → ValueMap
  pnext : Nat
  kstore : Nat → ValueMap
  knext : Nat

/-- Modelled from the spec: `Parameters::clone` (container code not among the
given sources) produces a fresh, independent container holding a copy of the
contents. -/
def cloneParameters (w : World) (p : Nat) : World × Nat :=
  ({ w with pstore := fun i => if i = w.pnext then w.pstore p else w.pstore i,
            pnext := w.pnext + 1 }, w.pnext)

/-- Modelled from the spec: `Kinematics::clone` (container code not among the
given sources) produces a fresh, independent container holding a copy of the
contents. -/
def cloneKinematics (w : World) (k : Nat) : World × Nat :=
  ({ w with kstore := fun i => if i = w.knext then w.kstore k else w.kstore i,
            knext := w.knext + 1 }, w.knext)

/-- Set one key of one value map. -/
def setKey (m : ValueMap) (key : String) (v : ℚ) : ValueMap :=
  (key, v) :: m.filter (fun kv => kv.1 ≠ key)

/-- Mutate one parameter (`p["name"] = v` in the host) inside the parameter
container referenced by `p`. -/
def setParameter (w : World) (p : Nat) (key : String) (v : ℚ) : World :=
  { w with pstore := fun i => if i = p then setKey (w.pstore p) key v else w.pstore i }

/-- A live, bound observable handle, as returned by the registry: it
references the parameter container it was bound against (`pid`) and computes
its value from that container's contents. -/
structure Handle where
  name : String
  pid : Nat
  f : ValueMap → ℚ

/-- Modelled from the spec: `Observable::clone(new_parameters)` rebinds the
handle against the new parameter container; the computation is unchanged but
afterwards reads the new container, sharing no ownership with the source. -/
def Handle.cloneTo (h : Handle) (pid' : Nat) : Handle :=
  { h with pid := pid' }

/-- Evaluate a bound handle in a world: delegate to the observable's own
computation over the current contents of its parameter container. -/
def Handle.evaluate (w : World) (h : Handle) : ℚ :=
  h.f (w.pstore h.pid)

/-- The four binary arithmetic operators of the expression language. -/
inductive BinaryOp where
  | add
  | sub
  | mul
  | div
deriving DecidableEq

/-- Apply a binary operator to two rational values (division by zero follows
the Lean convention `x / 0 = 0`; the claims under study never divide by
zero). -/
def BinaryOp.apply : BinaryOp → ℚ → ℚ → ℚ
  | .add, a, b => a + b
  | .sub, a, b => a - b
  | .mul, a, b => a * b
  | .div, a, b => a / b

/-- A non-empty expression tree node, after the data model of
`expression-fwd.hh`: a numeric literal, a binary operator node, an unbound
observable reference (name plus local kinematics/options overrides), or a
bound observable reference holding a live handle. -/
inductive Expr where
  | constant (v : ℚ)
  | binary (op : BinaryOp) (l r : Expr)
  | observableRef (name : String) (kin : StrMap) (opt : StrMap)
  | boundObservableRef (h : Handle)

/-- An expression tree as stored by the engine: either empty (the
default-constructed variant state, `Expression::empty()`) or a proper node
tree. -/
abbrev Expression := Option Expr

/-- `Expression::empty()`. -/
def Expression.isEmptyE : Expression → Bool
  | none => true
  | some _ => false

/-- `true` iff every leaf of the tree is a constant or a bound observable
reference (the tree is bound). -/
def Expr.bound : Expr → Bool
  | .constant _ => true
  | .binary _ l r => l.bound && r.bound
  | .observableRef _ _ _ => false
  | .boundObservableRef _ => true

/-- `true` iff no bound observable reference occurs in the tree (the tree is
unbound). -/
def Expr.unbound : Expr → Bool
  | .constant _ => true
  | .binary _ l r => l.unbound && r.unbound
  | .observableRef _ _ _ => true
  | .boundObservableRef _ => false

/-- The parameter-container references held by the bound leaves of a tree. -/
def Expr.pids : Expr → List Nat
  | .constant _ => []
  | .binary _ l r => l.pids ++ r.pids
  | .observableRef _ _ _ => []
  | .boundObservableRef h => [h.pid]

/-- Modelled from the spec: the `Options` merge `lhs + rhs` (operator code
not among the given sources); keys of the right operand win on conflict, so
a lookup first consults `rhs`. -/
def mergeOptions (lhs rhs : StrMap) : StrMap :=
  rhs ++ lhs.filter (fun kv => (rhs.lookup kv.1).isNone)

/-- A registry resolver, passed explicitly as a capability: given an
observable name, the ambient parameter and kinematics container references,
the reference's local kinematics overrides and the merged options, it
returns a live handle or fails. -/
abbrev Resolver := String → Nat → Nat → StrMap → StrMap → Option Handle

/-- Modelled from the spec: the `ExpressionMaker` visitor (binder).
Post-order traversal; constants pass through, binary nodes rebuild with
bound children, observable references are resolved via the registry under
the merged context (local overrides win over the ambient options), bound
references pass through; a resolution failure propagates unchanged. -/
def ExpressionMaker (res : Resolver) (pid kid : Nat) (opts : StrMap) : Expr → Except Error Expr
  | .constant v => .ok (.constant v)
  | .binary op l r =>
      match ExpressionMaker res pid kid opts l with
      | .error e => .error e
      | .ok l' =>
          match ExpressionMaker res pid kid opts r with
          | .error e => .error e
          | .ok r' => .ok (.binary op l' r')
  | .observableRef n kin opt =>
      match res n pid kid kin (mergeOptions opts opt) with
      | some h => .ok (.boundObservableRef h)
      | none => .error (.resolutionFailure n)
  | .boundObservableRef h => .ok (.boundObservableRef h)

/-- Modelled from the spec: the `ExpressionEvaluator` visitor. Post-order
traversal computing the scalar value bottom-up; a bound leaf delegates to
its handle; visiting a still-unbound reference is an internal failure. -/
def ExpressionEvaluator (w : World) : Expr → Except Error ℚ
  | .constant v => .ok v
  | .binary op l r =>
      match ExpressionEvaluator w l with
      | .error e => .error e
      | .ok a =>
          match ExpressionEvaluator w r with
          | .error e => .error e
          | .ok b => .ok (op.apply a b)
  | .observableRef n _ _ => .error (.unboundLeaf n)
  | .boundObservableRef h => .ok (h.evaluate w)

/-- Modelled from the spec: the `ExpressionCloner` visitor. Structure-
preserving copy of a bound tree whose bound leaves are rebound (cloned)
against the new parameter container. -/
def ExpressionCloner (pid' : Nat) : Expr → Expr
  | .constant v => .constant v
  | .binary op l r => .binary op (ExpressionCloner pid' l) (ExpressionCloner pid' r)
  | .observableRef n kin opt => .observableRef n kin opt
  | .boundObservableRef h => .boundObservableRef (h.cloneTo pid')

/-- Modelled from the spec: the `ExpressionKinematicReader` visitor, run
over an unbound tree. `kvOf` gives, for an observable name, the kinematic
variable names that observable exposes; an observable reference contributes
those names minus the keys its local kinematics overrides bind; constants
and bound leaves contribute nothing; a binary node contributes the union of
its children. -/
def ExpressionKinematicReader (kvOf : String → List String) : Expr → List String
  | .constant _ => []
  | .binary _ l r => ExpressionKinematicReader kvOf l ++ ExpressionKinematicReader kvOf r
  | .observableRef n kin _ => (kvOf n).filter (fun s => (kin.lookup s).isNone)
  | .boundObservableRef _ => []

/-- An `ExpressionObservable`: the name/parameters/kinematics/options
context it was bound against, plus its (bound) expression tree. -/
structure ExpressionObservable where
  name : String
  parameters : Nat
  kinematics : Nat
  options : StrMap
  expression : Expression

/-- The `ExpressionObservable` constructor: throws the empty-expression
`InternalError` on an empty tree, otherwise stores the tree bound by the
`ExpressionMaker` under the given context. -/
def ExpressionObservable.construct (res : Resolver) (name : String) (pid kid : Nat)
    (opts : StrMap) (e : Expression) : Except Error ExpressionObservable :=
  match e with
  | none => .error (.emptyExpression "ExpressionObservable")
  | some t =>
      match ExpressionMaker res pid kid opts t with
      | .error e => .error e
      | .ok t' => .ok ⟨name, pid, kid, opts, some t'⟩

/-- `ExpressionObservable::evaluate`: throws the empty-expression
`InternalError` on an empty stored tree, otherwise runs the evaluator. -/
def ExpressionObservable.evaluate (w : World) (o : ExpressionObservable) : Except Error ℚ :=
  match o.expression with
  | none => .error (.emptyExpression "ExpressionObservable::evaluate")
  | some t => ExpressionEvaluator w t

/-- `ExpressionObservable::clone()`: clone the parameter and kinematics
containers, run the `ExpressionCloner` against the new parameters, and
construct a new `ExpressionObservable` from the result under the same name
and options. -/
def ExpressionObservable.clone (res : Resolver) (w : World) (o : ExpressionObservable) :
    World × Except Error ExpressionObservable :=
  let pc := cloneParameters w o.parameters
  let kc := cloneKinematics pc.1 o.kinematics
  (kc.1, ExpressionObservable.construct res o.name pc.2 kc.2 o.options
    (o.expression.map (ExpressionCloner pc.2)))

/-- `ExpressionObservable::clone(parameters)`: adopt the caller-supplied
parameter container as-is, clone only the kinematics container, run the
`ExpressionCloner` against the supplied parameters, and construct a new
`ExpressionObservable` from the result under the same name and options. -/
def ExpressionObservable.cloneWith (res : Resolver) (w : World) (pid' : Nat)
    (o : ExpressionObservable) : World × Except Error ExpressionObservable :=
  let kc := cloneKinematics w o.kinematics
  (kc.1, ExpressionObservable.construct res o.name pid' kc.2 o.options
    (o.expression.map (ExpressionCloner pid')))

/-- An `ExpressionObservableEntry`: name, latex label, unit, the stored
unbound expression tree, the cached kinematic-variable-name list computed at
construction, and the options forced onto every instantiation. -/
structure ExpressionObservableEntry where
  name : String
  latex : String
  unit : String
  expression : Expression
  kinematicsNames : List String
  forcedOptions : StrMap

/-- The `ExpressionObservableEntry` constructor: throws the empty-expression
`InternalError` on an empty tree; otherwise runs the
`ExpressionKinematicReader` once, stores its result as a sorted,
duplicate-free list (the C++ collects into a `std::set<std::string>` and
copies it into the cached vector), and stores the unbound tree. -/
def ExpressionObservableEntry.construct (kvOf : String → List String)
    (name latex unit : String) (e : Expression) (forced : StrMap) :
    Except Error ExpressionObservableEntry :=
  match e with
  | none => .error (.emptyExpression "ExpressionObservableEntry")
  | some t =>
      .ok ⟨name, latex, unit, e,
        List.insertionSort strLe (ExpressionKinematicReader kvOf t).dedup, forced⟩

/-- The iteration range `begin_kinematic_variables() ..
end_kinematic_variables()`: the cached kinematic-variable-name list. -/
def ExpressionObservableEntry.kinematicVariables (en : ExpressionObservableEntry) :
    List String :=
  en.kinematicsNames

/-- `ExpressionObservableEntry::make`: throws the empty-expression
`InternalError` on an empty stored tree; otherwise constructs an
`ExpressionObservable` from the stored tree under the caller's context with
the entry's forced options merged over the caller's options
(`options + _forced_options`). -/
def ExpressionObservableEntry.make (res : Resolver) (en : ExpressionObservableEntry)
    (pid kid : Nat) (opts : StrMap) : Except Error ExpressionObservable :=
  match en.expression with
  | none => .error (.emptyExpression "ExpressionObservableEntry::make")
  | some _ =>
      ExpressionObservable.construct res en.name pid kid
        (mergeOptions opts en.forcedOptions) en.expression

/-- `ExpressionObservableEntry::insert`: write the fixed description line
followed by a newline to the stream (modelled as a string of written
characters) and return the stream. -/
def ExpressionObservableEntry.insert (_en : ExpressionObservableEntry) (os : String) :
    String :=
  let line := "    type: expression observable"
  os ++ line ++ "\n"

/-- Method-call form of `ExpressionObservableEntry::make`: the receiver is
returned alongside the result, modelling that the call (a `const` method in
the source) leaves the entry it was invoked on unchanged. -/
def ExpressionObservableEntry.makeCall (en : ExpressionObservableEntry) (res : Resolver)
    (pid kid : Nat) (opts : StrMap) :
    (Except Error ExpressionObservable) × ExpressionObservableEntry :=
  (en.make res pid kid opts, en)

/-- Method-call form of `ExpressionObservableEntry::insert`: the receiver is
returned alongside the written stream. -/
def ExpressionObservableEntry.insertCall (en : ExpressionObservableEntry) (os : String) :
    String × ExpressionObservableEntry :=
  (en.insert os, en)

/-- Method-call form of the `begin_kinematic_variables()` /
`end_kinematic_variables()` iteration: the receiver is returned alongside
the listed range. -/
def ExpressionObservableEntry.kinematicVariablesCall (en : ExpressionObservableEntry) :
    List String × ExpressionObservableEntry :=
  (en.kinematicVariables, en)

/-! ### The expression text grammar

The boost-spirit grammar of `expression-parser-impl.hh` is not among the
given sources; it is modelled from the specification (§4.1, §6): terms are
floating-point literals, parenthesized expressions, or observable
references written `<<name>>`; expressions join terms with the four binary
operators, `*` and `/` binding tighter than `+` and `-`; whitespace is
insignificant; an unrecognized token, an unterminated reference delimiter
or empty input is a `ParsingError`. -/

/-- The token alphabet of the expression language. -/
inductive Token where
  | num (v : ℚ)
  | plus
  | minus
  | star
  | slash
  | lparen
  | rparen
  | obs (name : String)
deriving DecidableEq

/-- The natural number denoted by a list of decimal digit characters. -/
def digitsToNat (ds : List Char) : Nat :=
  ds.foldl (fun a c => a * 10 + (c.toNat - 48)) 0

/-- Modelled from the spec: lex one floating-point literal (decimal digits
with an optional fractional part); returns its rational value and the
remaining characters. -/
def lexNumber (cs : List Char) : ℚ × List Char :=
  let ds := cs.takeWhile Char.isDigit
  let rest := cs.drop ds.length
  match rest with
  | '.' :: rest2 =>
      let fs := rest2.takeWhile Char.isDigit
      let rest3 := rest2.drop fs.length
      ((digitsToNat ds : ℚ) + (digitsToNat fs : ℚ) / ((10 : ℚ) ^ fs.length), rest3)
  | _ => ((digitsToNat ds : ℚ), rest)

/-- Modelled from the spec: scan the name of an observable reference up to
the closing `>>`; fails (`none`) on an unterminated delimiter. -/
def scanObsName : List Char → Option (List Char × List Char)
  | [] => none
  | '>' :: '>' :: rest => some ([], rest)
  | c :: rest =>
      match scanObsName rest with
      | some (n, r) => some (c :: n, r)
      | none => none

/-- Modelled from the spec: the lexer. One unit of fuel is spent per token;
fuel equal to the input length always suffices. Fails (`none`) on any
character that starts no recognized token and on an unterminated `<<`. -/
def tokenizeAux : Nat → List Char → Option (List Token)
  | _, [] => some []
  | 0, _ :: _ => none
  | fuel + 1, c :: cs =>
      if c = ' ' ∨ c = '\t' ∨ c = '\n' then
        tokenizeAux fuel cs
      else if c = '+' then
        (tokenizeAux fuel cs).map (Token.plus :: ·)
      else if c = '-' then
        (tokenizeAux fuel cs).map (Token.minus :: ·)
      else if c = '*' then
        (tokenizeAux fuel cs).map (Token.star :: ·)
      else if c = '/' then
        (tokenizeAux fuel cs).map (Token.slash :: ·)
      else if c = '(' then
        (tokenizeAux fuel cs).map (Token.lparen :: ·)
      else if c = ')' then
        (tokenizeAux fuel cs).map (Token.rparen :: ·)
      else if c.isDigit then
        let nr := lexNumber (c :: cs)
        (tokenizeAux fuel nr.2).map (Token.num nr.1 :: ·)
      else if c = '<' then
        match cs with
        | '<' :: cs2 =>
            match scanObsName cs2 with
            | some (n, rest) => (tokenizeAux fuel rest).map (Token.obs (String.mk n) :: ·)
            | none => none
        | _ => none
      else
        none

/-- Tokenize a source string. -/
def tokenize (s : String) : Option (List Token) :=
  tokenizeAux s.toList.length s.toList

mutual

/-- Modelled from the spec: parse an expression (the additive level). -/
def parseE (fuel : Nat) (ts : List Token) : Option (Expr × List Token) :=
  match fuel with
  | 0 => none
  | fuel + 1 =>
      match parseT fuel ts with
      | some (l, ts1) => parseESuffix fuel l ts1
      | none => none

/-- Modelled from the spec: parse a chain of `+`/`-` continuations,
left-associatively. -/
def parseESuffix (fuel : Nat) (acc : Expr) (ts : List Token) : Option (Expr × List Token) :=
  match fuel with
  | 0 => none
  | fuel + 1 =>
      match ts with
      | Token.plus :: ts1 =>
          match parseT fuel ts1 with
          | some (r, ts2) => parseESuffix fuel (.binary .add acc r) ts2
          | none => none
      | Token.minus :: ts1 =>
          match parseT fuel ts1 with
          | some (r, ts2) => parseESuffix fuel (.binary .sub acc r) ts2
          | none => none
      | _ => some (acc, ts)

/-- Modelled from the spec: parse a term (the multiplicative level). -/
def parseT (fuel : Nat) (ts : List Token) : Option (Expr × List Token) :=
  match fuel with
  | 0 => none
  | fuel + 1 =>
      match parseF fuel ts with
      | some (l, ts1) => parseTSuffix fuel l ts1
      | none => none

/-- Modelled from the spec: parse a chain of `*`/`/` continuations,
left-associatively. -/
def parseTSuffix (fuel : Nat) (acc : Expr) (ts : List Token) : Option (Expr × List Token) :=
  match fuel with
  | 0 => none
  | fuel + 1 =>
      match ts with
      | Token.star :: ts1 =>
          match parseF fuel ts1 with
          | some (r, ts2) => parseTSuffix fuel (.binary .mul acc r) ts2
          | none => none
      | Token.slash :: ts1 =>
          match parseF fuel ts1 with
          | some (r, ts2) => parseTSuffix fuel (.binary .div acc r) ts2
          | none => none
      | _ => some (acc, ts)

/-- Modelled from the spec: parse a factor: a literal, a parenthesized
expression, or an observable reference (with empty local overrides, as
written by the plain `<<name>>` form). -/
def parseF (fuel : Nat) (ts : List Token) : Option (Expr × List Token) :=
  match fuel with
  | 0 => none
  | fuel + 1 =>
      match ts with
      | Token.num v :: ts1 => some (.constant v, ts1)
      | Token.obs n :: ts1 => some (.observableRef n [] [], ts1)
      | Token.lparen :: ts1 =>
          match parseE fuel ts1 with
          | some (e, Token.rparen :: ts2) => some (e, ts2)
          | _ => none
      | _ => none

end

/-- Modelled from the spec: the parser. Turns source text into an unbound
expression tree, or fails with a `ParsingError` on a lexing failure, a
malformed expression, or trailing input. -/
def parseExpression (s : String) : Except Error Expression :=
  match tokenize s with
  | none => .error (.parsingFailure "unrecognized or unterminated token")
  | some ts =>
      match parseE (4 * ts.length + 4) ts with
      | some (t, []) => .ok (some t)
      | some (_, _ :: _) => .error (.parsingFailure "trailing input after expression")
      | none => .error (.parsingFailure "malformed expression")

/-! ### Helper lemmas -/

theorem listLeb_total (a b : List Char) : listLeb a b = true ∨ listLeb b a = true := by
  induction a generalizing b with
  | nil => left; rfl
  | cons x xs ih =>
    cases b with
    | nil => right; rfl
    | cons y ys =>
      by_cases hxy : x < y
      · left; simp [listLeb, hxy]
      · by_cases hyx : y < x
        · right; simp [listLeb, hyx]
        · have heq : x = y := le_antisymm (not_lt.mp hyx) (not_lt.mp hxy)
          subst heq
          rcases ih ys with h | h
          · left; simp [listLeb, h]
          · right; simp [listLeb, h]

theorem listLeb_trans (a b c : List Char) (h1 : listLeb a b = true)
    (h2 : listLeb b c = true) : listLeb a c = true := by
  induction a generalizing b c with
  | nil => rfl
  | cons x xs ih =>
    cases b with
    | nil => simp [listLeb] at h1
    | cons y ys =>
      cases c with
      | nil => simp [listLeb] at h2
      | cons z zs =>
        simp only [listLeb] at h1 h2 ⊢
        by_cases hxy : x < y
        · by_cases hyz : y < z
          · simp [lt_trans hxy hyz]
          · by_cases hzy : z < y
            · simp [hyz, hzy] at h2
            · have : y = z := le_antisymm (not_lt.mp hzy) (not_lt.mp hyz)
              subst this
              simp [hxy]
        · by_cases hyx : y < x
          · simp [hxy, hyx] at h1
          · have : x = y := le_antisymm (not_lt.mp hyx) (not_lt.mp hxy)
            subst this
            simp only [if_neg hxy, lt_irrefl, if_neg (lt_irrefl x)] at h1 ⊢
            by_cases hyz : x < z
            · simp [hyz]
            · by_cases hzy : z < x
              · simp [hyz, hzy] at h2
              · have : x = z := le_antisymm (not_lt.mp hzy) (not_lt.mp hyz)
                subst this
                simp only [lt_irrefl, if_neg (lt_irrefl x)] at h2 ⊢
                exact ih ys zs h1 h2

instance : IsTotal String strLe :=
  ⟨fun a b => listLeb_total a.toList b.toList⟩

instance : IsTrans String strLe :=
  ⟨fun a b c => listLeb_trans a.toList b.toList c.toList⟩

/-- The binder never raises the empty-expression failure on a node tree. -/
theorem ExpressionMaker_ne_emptyExpression (res : Resolver) (pid kid : Nat) (opts : StrMap)
    (t : Expr) (s : String) :
    ExpressionMaker res pid kid opts t ≠ .error (.emptyExpression s) := by
  induction t with
  | constant v => simp [ExpressionMaker]
  | binary op l r ihl ihr =>
    simp only [ExpressionMaker]
    cases hl : ExpressionMaker res pid kid opts l with
    | error e =>
      simp only [ne_eq, Except.error.injEq]
      intro h
      subst h
      exact ihl hl
    | ok l' =>
      cases hr : ExpressionMaker res pid kid opts r with
      | error e =>
        simp only [ne_eq, Except.error.injEq]
        intro h
        subst h
        exact ihr hr
      | ok r' => simp
  | observableRef n kin opt =>
    simp only [ExpressionMaker]
    cases res n pid kid kin (mergeOptions opts opt) <;> simp
  | boundObservableRef h => simp [ExpressionMaker]

/-- The evaluator never raises the empty-expression failure on a node
tree. -/
theorem ExpressionEvaluator_ne_emptyExpression (w : World) (t : Expr) (s : String) :
    ExpressionEvaluator w t ≠ .error (.emptyExpression s) := by
  induction t with
  | constant v => simp [ExpressionEvaluator]
  | binary op l r ihl ihr =>
    simp only [ExpressionEvaluator]
    cases hl : ExpressionEvaluator w l with
    | error e =>
      simp only [ne_eq, Except.error.injEq]
      intro h
      subst h
      exact ihl hl
    | ok a =>
      cases hr : ExpressionEvaluator w r with
      | error e =>
        simp only [ne_eq, Except.error.injEq]
        intro h
        subst h
        exact ihr hr
      | ok b => simp
  | observableRef n kin opt => simp [ExpressionEvaluator]
  | boundObservableRef h => simp [ExpressionEvaluator]

/-- A successfully bound tree is bound. -/
theorem ExpressionMaker_bound (res : Resolver) (pid kid : Nat) (opts : StrMap)
    (t t' : Expr) (h : ExpressionMaker res pid kid opts t = .ok t') : t'.bound = true := by
  induction t generalizing t' with
  | constant v =>
    simp only [ExpressionMaker, Except.ok.injEq] at h
    subst h; rfl
  | binary op l r ihl ihr =>
    simp only [ExpressionMaker] at h
    cases hl : ExpressionMaker res pid kid opts l with
    | error e => rw [hl] at h; simp at h
    | ok l' =>
      rw [hl] at h
      cases hr : ExpressionMaker res pid kid opts r with
      | error e => rw [hr] at h; simp at h
      | ok r' =>
        rw [hr] at h
        simp only [Except.ok.injEq] at h
        subst h
        simp [Expr.bound, ihl l' hl, ihr r' hr]
  | observableRef n kin opt =>
    simp only [ExpressionMaker] at h
    cases hres : res n pid kid kin (mergeOptions opts opt) with
    | none => simp [hres] at h
    | some hd =>
      simp only [hres, Except.ok.injEq] at h
      subst h; rfl
  | boundObservableRef hd =>
    simp only [ExpressionMaker, Except.ok.injEq] at h
    subst h; rfl

/-- The binder passes an already-bound tree through unchanged. -/
theorem ExpressionMaker_of_bound (res : Resolver) (pid kid : Nat) (opts : StrMap)
    (t : Expr) (h : t.bound = true) : ExpressionMaker res pid kid opts t = .ok t := by
  induction t with
  | constant v => rfl
  | binary op l r ihl ihr =>
    simp only [Expr.bound, Bool.and_eq_true] at h
    simp [ExpressionMaker, ihl h.1, ihr h.2]
  | observableRef n kin opt => simp [Expr.bound] at h
  | boundObservableRef hd => rfl

/-- The cloner preserves boundness. -/
theorem ExpressionCloner_bound (pid' : Nat) (t : Expr) (h : t.bound = true) :
    (ExpressionCloner pid' t).bound = true := by
  induction t with
  | constant v => rfl
  | binary op l r ihl ihr =>
    simp only [Expr.bound, Bool.and_eq_true] at h
    simp [ExpressionCloner, Expr.bound, ihl h.1, ihr h.2]
  | observableRef n kin opt => simp [Expr.bound] at h
  | boundObservableRef hd => rfl

/-- Every bound leaf of a cloned tree references the new parameter
container. -/
theorem ExpressionCloner_pids (pid' : Nat) (t : Expr) :
    ∀ q ∈ (ExpressionCloner pid' t).pids, q = pid' := by
  induction t with
  | constant v => simp [ExpressionCloner, Expr.pids]
  | binary op l r ihl ihr =>
    simp only [ExpressionCloner, Expr.pids, List.mem_append]
    intro q hq
    rcases hq with hq | hq
    · exact ihl q hq
    · exact ihr q hq
  | observableRef n kin opt => simp [ExpressionCloner, Expr.pids]
  | boundObservableRef hd =>
    simp [ExpressionCloner, Expr.pids, Handle.cloneTo]

/-- Mutating a parameter container that no bound leaf of a tree references
leaves the tree's evaluation unchanged. -/
theorem ExpressionEvaluator_setParameter (w : World) (t : Expr) (p : Nat) (key : String)
    (v : ℚ) (h : ∀ q ∈ t.pids, q ≠ p) :
    ExpressionEvaluator (setParameter w p key v) t = ExpressionEvaluator w t := by
  induction t with
  | constant c => rfl
  | binary op l r ihl ihr =>
    simp only [Expr.pids, List.mem_append] at h
    simp only [ExpressionEvaluator]
    rw [ihl (fun q hq => h q (Or.inl hq)), ihr (fun q hq => h q (Or.inr hq))]
  | observableRef n kin opt => rfl
  | boundObservableRef hd =>
    have hne : hd.pid ≠ p := h hd.pid (by simp [Expr.pids])
    simp only [ExpressionEvaluator, Handle.evaluate, setParameter]
    rw [if_neg hne]

/-- A key found in the left part of an appended association list keeps its
value. -/
theorem lookup_append_left {α β : Type} [BEq α] (r x : List (α × β)) (k : α) (v : β)
    (h : r.lookup k = some v) : (r ++ x).lookup k = some v := by
  induction r with
  | nil => simp [List.lookup] at h
  | cons a tl ih =>
    obtain ⟨k', v'⟩ := a
    rw [List.cons_append]
    rw [List.lookup] at h ⊢
    cases hkk : (k == k') with
    | true => rw [hkk] at h; exact h
    | false => rw [hkk] at h; exact ih h

/-- A forced option survives the merge: the right operand of the options
merge wins. -/
theorem lookup_mergeOptions_right (l r : StrMap) (k v : String)
    (h : r.lookup k = some v) : (mergeOptions l r).lookup k = some v :=
  lookup_append_left r _ k v h

/-- The constructor never raises the empty-expression failure on a
non-empty tree. -/
theorem construct_ne_emptyExpression (res : Resolver) (nm : String) (pid kid : Nat)
    (opts : StrMap) (t : Expr) (s : String) :
    ExpressionObservable.construct res nm pid kid opts (some t) ≠
      .error (.emptyExpression s) := by
  simp only [ExpressionObservable.construct]
  cases hm : ExpressionMaker res pid kid opts t with
  | error e =>
    simp only [ne_eq, Except.error.injEq]
    intro h
    subst h
    exact ExpressionMaker_ne_emptyExpression res pid kid opts t s hm
  | ok t' => simp

/-- Inversion of a successful construction: the supplied tree was a node
tree, binding succeeded, and the observable stores the bound tree together
with the supplied context. -/
theorem construct_ok_expression (res : Resolver) (nm : String) (pid kid : Nat)
    (opts : StrMap) (e : Expression) (o : ExpressionObservable)
    (h : ExpressionObservable.construct res nm pid kid opts e = .ok o) :
    ∃ t t', e = some t ∧ ExpressionMaker res pid kid opts t = .ok t' ∧
      o = ⟨nm, pid, kid, opts, some t'⟩ := by
  cases e with
  | none => simp [ExpressionObservable.construct] at h
  | some t =>
    simp only [ExpressionObservable.construct] at h
    cases hm : ExpressionMaker res pid kid opts t with
    | error e' => rw [hm] at h; simp at h
    | ok t' =>
      rw [hm] at h
      simp only [Except.ok.injEq] at h
      exact ⟨t, t', rfl, hm, h.symm⟩

/-! ### The claims -/

/-- C1: For every empty expression tree, constructing an
`ExpressionObservable` from it, evaluating an `ExpressionObservable`
holding it, and calling `ExpressionObservableEntry::make` on an entry
storing it all fail with the `InternalError`-class empty-expression
failure; for every non-empty tree none of the three operations raises this
failure. -/
theorem claim_C1 (res : Resolver) (nm : String) (pid kid : Nat) (opts : StrMap)
    (w : World) (o : ExpressionObservable) (en : ExpressionObservableEntry)
    (ho : o.expression = none) (hen : en.expression = none) (t : Expr) :
    ExpressionObservable.construct res nm pid kid opts none =
        .error (.emptyExpression "ExpressionObservable") ∧
    o.evaluate w = .error (.emptyExpression "ExpressionObservable::evaluate") ∧
    en.make res pid kid opts =
        .error (.emptyExpression "ExpressionObservableEntry::make") ∧
    (∀ s, ExpressionObservable.construct res nm pid kid opts (some t) ≠
        .error (.emptyExpression s)) ∧
    (∀ s (o' : ExpressionObservable), o'.expression = some t →
        o'.evaluate w ≠ .error (.emptyExpression s)) ∧
    (∀ s (en' : ExpressionObservableEntry), en'.expression = some t →
        en'.make res pid kid opts ≠ .error (.emptyExpression s)) := by
  refine ⟨rfl, ?_, ?_, ?_, ?_, ?_⟩
  · simp [ExpressionObservable.evaluate, ho]
  · simp [ExpressionObservableEntry.make, hen]
  · intro s
    exact construct_ne_emptyExpression res nm pid kid opts t s
  · intro s o' h
    simp only [ExpressionObservable.evaluate, h]
    exact ExpressionEvaluator_ne_emptyExpression w t s
  · intro s en' h
    simp only [ExpressionObservableEntry.make, h]
    exact construct_ne_emptyExpression res en'.name pid kid
      (mergeOptions opts en'.forcedOptions) t s

/-- Witness for C1 at a concrete context: an observable and an entry
holding the empty tree, and the constant tree `1` as the non-empty tree. -/
theorem claim_C1_witness :
    ExpressionObservable.construct (fun _ _ _ _ _ => none) "o" 0 0 [] none =
        .error (.emptyExpression "ExpressionObservable") ∧
    ExpressionObservable.evaluate ⟨fun _ => [], 0, fun _ => [], 0⟩
        ⟨"o", 0, 0, [], none⟩ =
        .error (.emptyExpression "ExpressionObservable::evaluate") ∧
    ExpressionObservableEntry.make (fun _ _ _ _ _ => none)
        ⟨"e", "e", "1", none, [], []⟩ 0 0 [] =
        .error (.emptyExpression "ExpressionObservableEntry::make") ∧
    ExpressionObservable.construct (fun _ _ _ _ _ => none) "o" 0 0 []
        (some (.constant 1)) ≠
      .error (.emptyExpression "ExpressionObservable") ∧
    ExpressionObservable.evaluate ⟨fun _ => [], 0, fun _ => [], 0⟩
        ⟨"o", 0, 0, [], some (.constant 1)⟩ ≠
      .error (.emptyExpression "ExpressionObservable::evaluate") ∧
    ExpressionObservableEntry.make (fun _ _ _ _ _ => none)
        ⟨"e", "e", "1", some (.constant 1), [], []⟩ 0 0 [] ≠
      .error (.emptyExpression "ExpressionObservableEntry::make") := by
  have h := claim_C1 (fun _ _ _ _ _ => none) "o" 0 0 []
    ⟨fun _ => [], 0, fun _ => [], 0⟩ ⟨"o", 0, 0, [], none⟩
    ⟨"e", "e", "1", none, [], []⟩ rfl rfl (.constant 1)
  exact ⟨h.1, h.2.1, h.2.2.1, h.2.2.2.1 "ExpressionObservable",
    h.2.2.2.2.1 "ExpressionObservable::evaluate" ⟨"o", 0, 0, [], some (.constant 1)⟩ rfl,
    h.2.2.2.2.2 "ExpressionObservableEntry::make"
      ⟨"e", "e", "1", some (.constant 1), [], []⟩ rfl⟩

/-- C7: evaluating any successfully constructed `ExpressionObservable`
never reaches the empty-expression `InternalError` branch of
`evaluate()`. -/
theorem claim_C7 (res : Resolver) (nm : String) (pid kid : Nat) (opts : StrMap)
    (e : Expression) (o : ExpressionObservable)
    (h : ExpressionObservable.construct res nm pid kid opts e = .ok o)
    (w : World) (s : String) :
    o.evaluate w ≠ .error (.emptyExpression s) := by
  obtain ⟨t, t', _, _, ho⟩ := construct_ok_expression res nm pid kid opts e o h
  subst ho
  simp only [ExpressionObservable.evaluate]
  exact ExpressionEvaluator_ne_emptyExpression w t' s

/-- Witness for C7: a constant observable constructed successfully; its
evaluation does not raise the empty-expression failure. -/
theorem claim_C7_witness :
    ExpressionObservable.evaluate ⟨fun _ => [], 0, fun _ => [], 0⟩
        ⟨"o", 0, 0, [], some (.constant 2)⟩ ≠
      .error (.emptyExpression "ExpressionObservable::evaluate") :=
  claim_C7 (fun _ _ _ _ _ => none) "o" 0 0 [] (some (.constant 2))
    ⟨"o", 0, 0, [], some (.constant 2)⟩ rfl ⟨fun _ => [], 0, fun _ => [], 0⟩
    "ExpressionObservable::evaluate"

/-- C10: `ExpressionObservableEntry::insert` writes exactly the fixed line
`    type: expression observable` followed by a newline to the stream,
returning the stream, independently of every field of the entry. -/
theorem claim_C10 :
    (∀ (en : ExpressionObservableEntry) (os : String),
        en.insert os = os ++ "    type: expression observable" ++ "\n") ∧
    (∀ (en₁ en₂ : ExpressionObservableEntry) (os : String),
        en₁.insert os = en₂.insert os) :=
  ⟨fun _ _ => rfl, fun _ _ _ => rfl⟩

/-- C4: for every unbound expression tree, the kinematic-name list cached
at entry construction holds exactly the free kinematic-variable names the
collector finds in the tree, without duplicates, and the externally listed
order (the `begin_kinematic_variables` / `end_kinematic_variables` range)
is sorted. -/
theorem claim_C4 (kvOf : String → List String) (nm latex unitN : String) (t : Expr)
    (forced : StrMap) (en : ExpressionObservableEntry) (_hu : t.unbound = true)
    (h : ExpressionObservableEntry.construct kvOf nm latex unitN (some t) forced = .ok en) :
    en.kinematicVariables.Nodup ∧
    en.kinematicVariables.Sorted strLe ∧
    (∀ s, s ∈ en.kinematicVariables ↔ s ∈ ExpressionKinematicReader kvOf t) := by
  have hen : en.kinematicsNames =
      List.insertionSort strLe (ExpressionKinematicReader kvOf t).dedup := by
    simp only [ExpressionObservableEntry.construct, Except.ok.injEq] at h
    rw [← h]
  refine ⟨?_, ?_, ?_⟩
  · rw [ExpressionObservableEntry.kinematicVariables, hen]
    exact (List.perm_insertionSort _ _).nodup_iff.mpr (List.nodup_dedup _)
  · rw [ExpressionObservableEntry.kinematicVariables, hen]
    exact List.sorted_insertionSort _ _
  · intro s
    rw [ExpressionObservableEntry.kinematicVariables, hen, List.mem_insertionSort,
      List.mem_dedup]

/-- Witness for C4: an entry over `<<A>> + <<B>>` where `A` exposes the
kinematic variables `s` and `theta` and `B` exposes `s`; the cached list is
the sorted, duplicate-free `[s, theta]`. -/
theorem claim_C4_witness :
    (⟨"e", "e", "1",
      some (.binary .add (.observableRef "A" [] []) (.observableRef "B" [] [])),
      ["s", "theta"], []⟩ :
        ExpressionObservableEntry).kinematicVariables.Nodup ∧
    (⟨"e", "e", "1",
      some (.binary .add (.observableRef "A" [] []) (.observableRef "B" [] [])),
      ["s", "theta"], []⟩ :
        ExpressionObservableEntry).kinematicVariables.Sorted strLe ∧
    ("theta" ∈ (⟨"e", "e", "1",
      some (.binary .add (.observableRef "A" [] []) (.observableRef "B" [] [])),
      ["s", "theta"], []⟩ :
        ExpressionObservableEntry).kinematicVariables ↔
      "theta" ∈ ExpressionKinematicReader
        (fun n => if n = "A" then ["s", "theta"] else ["s"])
        (.binary .add (.observableRef "A" [] []) (.observableRef "B" [] []))) := by
  have h := claim_C4 (fun n => if n = "A" then ["s", "theta"] else ["s"]) "e" "e" "1"
    (.binary .add (.observableRef "A" [] []) (.observableRef "B" [] [])) []
    ⟨"e", "e", "1",
      some (.binary .add (.observableRef "A" [] []) (.observableRef "B" [] [])),
      ["s", "theta"], []⟩ (by rfl) (by rfl)
  exact ⟨h.1, h.2.1, h.2.2 "theta"⟩

/-- C8: the kinematic-variable-name list is the value computed by the
collector at entry construction; the iteration range reuses exactly that
cached list; `make` neither reads nor could recompute it (its result is
unchanged under any replacement of the cached list); and `make`, `insert`
and the iteration, being calls on a `const` entry, return the entry
unchanged, its cached list and stored tree included. -/
theorem claim_C8 (kvOf : String → List String) (nm latex unitN : String) (t : Expr)
    (forced : StrMap) (en : ExpressionObservableEntry)
    (h : ExpressionObservableEntry.construct kvOf nm latex unitN (some t) forced = .ok en) :
    en.kinematicsNames =
        List.insertionSort strLe (ExpressionKinematicReader kvOf t).dedup ∧
    en.kinematicVariables = en.kinematicsNames ∧
    (∀ (res : Resolver) (pid kid : Nat) (opts : StrMap) (names' : List String),
        ExpressionObservableEntry.make res { en with kinematicsNames := names' }
          pid kid opts = en.make res pid kid opts) ∧
    (∀ (res : Resolver) (pid kid : Nat) (opts : StrMap),
        (en.makeCall res pid kid opts).2 = en ∧
        (en.makeCall res pid kid opts).2.kinematicsNames = en.kinematicsNames ∧
        (en.makeCall res pid kid opts).2.expression = some t) ∧
    (∀ os, (en.insertCall os).2 = en) ∧
    en.kinematicVariablesCall.2 = en := by
  have hexp : en.expression = some t ∧ en.kinematicsNames =
      List.insertionSort strLe (ExpressionKinematicReader kvOf t).dedup := by
    simp only [ExpressionObservableEntry.construct, Except.ok.injEq] at h
    rw [← h]
    exact ⟨rfl, rfl⟩
  exact ⟨hexp.2, rfl, fun _ _ _ _ _ => rfl,
    fun _ _ _ _ => ⟨rfl, rfl, hexp.1⟩, fun _ => rfl, rfl⟩

/-- Witness for C8 at the concrete entry over the constant tree `3`. -/
theorem claim_C8_witness :
    (⟨"e", "e", "1", some (.constant 3), [], []⟩ :
        ExpressionObservableEntry).kinematicsNames =
      List.insertionSort strLe
        (ExpressionKinematicReader (fun _ => []) (.constant 3)).dedup ∧
    (⟨"e", "e", "1", some (.constant 3), [], []⟩ :
        ExpressionObservableEntry).kinematicVariables =
      (⟨"e", "e", "1", some (.constant 3), [], []⟩ :
        ExpressionObservableEntry).kinematicsNames := by
  have h := claim_C8 (fun _ => []) "e" "e" "1" (.constant 3) []
    ⟨"e", "e", "1", some (.constant 3), [], []⟩ (by rfl)
  exact ⟨h.1, h.2.1⟩

/-- C3: `make` binds the entry's tree against the caller-supplied options
merged with the entry's forced options, and on every key present in both,
the forced value wins. -/
theorem claim_C3 (res : Resolver) (en : ExpressionObservableEntry) (pid kid : Nat)
    (opts : StrMap) (o : ExpressionObservable)
    (h : en.make res pid kid opts = .ok o) :
    o.options = mergeOptions opts en.forcedOptions ∧
    (∀ key fv cv, en.forcedOptions.lookup key = some fv → opts.lookup key = some cv →
        o.options.lookup key = some fv) ∧
    (∃ t t', en.expression = some t ∧
        ExpressionMaker res pid kid (mergeOptions opts en.forcedOptions) t = .ok t' ∧
        o.expression = some t') := by
  cases hexp : en.expression with
  | none => simp [ExpressionObservableEntry.make, hexp] at h
  | some t =>
    rw [ExpressionObservableEntry.make, hexp] at h
    obtain ⟨t0, t', het, hm, ho⟩ := construct_ok_expression res en.name pid kid
      (mergeOptions opts en.forcedOptions) (some t) o h
    obtain rfl : t = t0 := Option.some.inj het
    subst ho
    refine ⟨rfl, ?_, t, t', rfl, hm, rfl⟩
    intro key fv cv hf _
    exact lookup_mergeOptions_right opts en.forcedOptions key fv hf

/-- Witness for C3: an entry forcing `model := A` instantiated with caller
options `model := B, x := y`; the bound observable carries the merged
options, with the forced value winning on `model`. -/
theorem claim_C3_witness :
    (⟨"e", 0, 0, mergeOptions [("model", "B"), ("x", "y")] [("model", "A")],
      some (.constant 3)⟩ : ExpressionObservable).options =
        mergeOptions [("model", "B"), ("x", "y")] [("model", "A")] ∧
    (⟨"e", 0, 0, mergeOptions [("model", "B"), ("x", "y")] [("model", "A")],
      some (.constant 3)⟩ : ExpressionObservable).options.lookup "model" =
        some "A" := by
  have h := claim_C3 (fun _ _ _ _ _ => none)
    ⟨"e", "e", "1", some (.constant 3), [], [("model", "A")]⟩ 0 0
    [("model", "B"), ("x", "y")]
    ⟨"e", 0, 0, mergeOptions [("model", "B"), ("x", "y")] [("model", "A")],
      some (.constant 3)⟩ (by rfl)
  exact ⟨h.1, h.2.1 "model" "A" "B" (by rfl) (by rfl)⟩

/-- C9: both clones keep the original's name and options; `clone()` binds
the copied tree against freshly cloned parameter and kinematics containers
(holding copies of the originals' contents), while `clone(parameters)`
adopts the caller-supplied parameter container as-is, allocating no new
parameter container, and clones only the kinematics container. -/
theorem claim_C9 (res : Resolver) (w : World) (o : ExpressionObservable) (t : Expr)
    (ht : o.expression = some t) (hb : t.bound = true) :
    (∃ o₁, (o.clone res w).2 = .ok o₁ ∧ o₁.name = o.name ∧ o₁.options = o.options ∧
        o₁.parameters = w.pnext ∧
        (o.clone res w).1.pstore o₁.parameters = w.pstore o.parameters ∧
        o₁.kinematics = w.knext ∧
        (o.clone res w).1.kstore o₁.kinematics = w.kstore o.kinematics ∧
        (o.clone res w).1.pnext = w.pnext + 1 ∧
        (o.clone res w).1.knext = w.knext + 1) ∧
    (∀ pid', ∃ o₂, (o.cloneWith res w pid').2 = .ok o₂ ∧ o₂.name = o.name ∧
        o₂.options = o.options ∧ o₂.parameters = pid' ∧
        (o.cloneWith res w pid').1.pnext = w.pnext ∧
        (o.cloneWith res w pid').1.pstore = w.pstore ∧
        o₂.kinematics = w.knext ∧
        (o.cloneWith res w pid').1.kstore o₂.kinematics = w.kstore o.kinematics) := by
  constructor
  · refine ⟨⟨o.name, w.pnext, w.knext, o.options,
      some (ExpressionCloner w.pnext t)⟩, ?_, rfl, rfl, rfl, ?_, rfl, ?_, rfl, rfl⟩
    · simp only [ExpressionObservable.clone, cloneParameters, cloneKinematics, ht,
        Option.map_some', ExpressionObservable.construct,
        ExpressionMaker_of_bound res w.pnext w.knext o.options
          (ExpressionCloner w.pnext t) (ExpressionCloner_bound w.pnext t hb)]
    · simp only [ExpressionObservable.clone, cloneParameters, cloneKinematics]
      simp
    · simp only [ExpressionObservable.clone, cloneParameters, cloneKinematics]
      simp
  · intro pid'
    refine ⟨⟨o.name, pid', w.knext, o.options,
      some (ExpressionCloner pid' t)⟩, ?_, rfl, rfl, rfl, rfl, rfl, rfl, ?_⟩
    · simp only [ExpressionObservable.cloneWith, cloneKinematics, ht,
        Option.map_some', ExpressionObservable.construct,
        ExpressionMaker_of_bound res pid' w.knext o.options
          (ExpressionCloner pid' t) (ExpressionCloner_bound pid' t hb)]
    · simp only [ExpressionObservable.cloneWith, cloneKinematics]
      simp

/-- Witness for C9: a bound observable over a single bound leaf, cloned in
a world with two allocated parameter containers. -/
theorem claim_C9_witness :
    (∃ o₁, ((⟨"o", 0, 0, [],
        some (.boundObservableRef ⟨"x", 0, fun _ => 1⟩)⟩ :
          ExpressionObservable).clone (fun _ _ _ _ _ => none)
          ⟨fun _ => [], 1, fun _ => [], 1⟩).2 = .ok o₁ ∧
        o₁.name = "o" ∧ o₁.options = [] ∧ o₁.parameters = 1 ∧
        (((⟨"o", 0, 0, [],
          some (.boundObservableRef ⟨"x", 0, fun _ => 1⟩)⟩ :
            ExpressionObservable).clone (fun _ _ _ _ _ => none)
            ⟨fun _ => [], 1, fun _ => [], 1⟩).1).pstore o₁.parameters = [] ∧
        o₁.kinematics = 1 ∧
        (((⟨"o", 0, 0, [],
          some (.boundObservableRef ⟨"x", 0, fun _ => 1⟩)⟩ :
            ExpressionObservable).clone (fun _ _ _ _ _ => none)
            ⟨fun _ => [], 1, fun _ => [], 1⟩).1).kstore o₁.kinematics = [] ∧
        (((⟨"o", 0, 0, [],
          some (.boundObservableRef ⟨"x", 0, fun _ => 1⟩)⟩ :
            ExpressionObservable).clone (fun _ _ _ _ _ => none)
            ⟨fun _ => [], 1, fun _ => [], 1⟩).1).pnext = 2 ∧
        (((⟨"o", 0, 0, [],
          some (.boundObservableRef ⟨"x", 0, fun _ => 1⟩)⟩ :
            ExpressionObservable).clone (fun _ _ _ _ _ => none)
            ⟨fun _ => [], 1, fun _ => [], 1⟩).1).knext = 2) ∧
    (∃ o₂, ((⟨"o", 0, 0, [],
        some (.boundObservableRef ⟨"x", 0, fun _ => 1⟩)⟩ :
          ExpressionObservable).cloneWith (fun _ _ _ _ _ => none)
          ⟨fun _ => [], 1, fun _ => [], 1⟩ 3).2 = .ok o₂ ∧
        o₂.name = "o" ∧ o₂.options = [] ∧ o₂.parameters = 3 ∧
        (((⟨"o", 0, 0, [],
          some (.boundObservableRef ⟨"x", 0, fun _ => 1⟩)⟩ :
            ExpressionObservable).cloneWith (fun _ _ _ _ _ => none)
            ⟨fun _ => [], 1, fun _ => [], 1⟩ 3).1).pnext = 1 ∧
        (((⟨"o", 0, 0, [],
          some (.boundObservableRef ⟨"x", 0, fun _ => 1⟩)⟩ :
            ExpressionObservable).cloneWith (fun _ _ _ _ _ => none)
            ⟨fun _ => [], 1, fun _ => [], 1⟩ 3).1).pstore =
          (⟨fun _ => [], 1, fun _ => [], 1⟩ : World).pstore ∧
        o₂.kinematics = 1 ∧
        (((⟨"o", 0, 0, [],
          some (.boundObservableRef ⟨"x", 0, fun _ => 1⟩)⟩ :
            ExpressionObservable).cloneWith (fun _ _ _ _ _ => none)
            ⟨fun _ => [], 1, fun _ => [], 1⟩ 3).1).kstore o₂.kinematics = []) := by
  have h := claim_C9 (fun _ _ _ _ _ => none) ⟨fun _ => [], 1, fun _ => [], 1⟩
    ⟨"o", 0, 0, [], some (.boundObservableRef ⟨"x", 0, fun _ => 1⟩)⟩
    (.boundObservableRef ⟨"x", 0, fun _ => 1⟩) rfl rfl
  exact ⟨h.1, h.2 3⟩

/-- C2: for a bound `ExpressionObservable` whose leaves reference the
parameter container `p`, the clone against a fresh container `p'` is fully
decoupled: mutating any parameter of `p` never changes the clone's
evaluation, and mutating any parameter of `p'` never changes the
original's evaluation. -/
theorem claim_C2 (res : Resolver) (w W : World) (o : ExpressionObservable) (t : Expr)
    (p p' : Nat) (k k' : String) (v v' : ℚ)
    (ht : o.expression = some t) (hb : t.bound = true)
    (hp : t.pids.all (· = p) = true) (hne : p' ≠ p) :
    ∃ o', (o.cloneWith res w p').2 = .ok o' ∧
      o'.evaluate (setParameter W p k v) = o'.evaluate W ∧
      o.evaluate (setParameter W p' k' v') = o.evaluate W := by
  refine ⟨⟨o.name, p', (cloneKinematics w o.kinematics).2, o.options,
    some (ExpressionCloner p' t)⟩, ?_, ?_, ?_⟩
  · simp only [ExpressionObservable.cloneWith, ht, Option.map_some',
      ExpressionObservable.construct,
      ExpressionMaker_of_bound res p' (cloneKinematics w o.kinematics).2 o.options
        (ExpressionCloner p' t) (ExpressionCloner_bound p' t hb)]
  · simp only [ExpressionObservable.evaluate]
    exact ExpressionEvaluator_setParameter W (ExpressionCloner p' t) p k v
      (fun q hq => (ExpressionCloner_pids p' t q hq) ▸ hne)
  · simp only [ExpressionObservable.evaluate, ht]
    refine ExpressionEvaluator_setParameter W t p' k' v' (fun q hq => ?_)
    have : q = p := by
      rw [List.all_eq_true] at hp
      exact of_decide_eq_true (hp q hq)
    rw [this]
    exact fun hc => hne hc.symm

/-- Witness for C2: a bound observable reading `x` from parameter container
`0`, cloned against the fresh container `1`; mutations of either container
do not cross over. -/
theorem claim_C2_witness :
    ∃ o', ((⟨"o", 0, 0, [],
        some (.boundObservableRef
          ⟨"x", 0, fun pm => ((pm.lookup "x").getD 0)⟩)⟩ :
          ExpressionObservable).cloneWith (fun _ _ _ _ _ => none)
          ⟨fun _ => [("x", 5)], 1, fun _ => [], 1⟩ 1).2 = .ok o' ∧
      o'.evaluate (setParameter ⟨fun _ => [("x", 5)], 2, fun _ => [], 2⟩ 0 "x" 7) =
        o'.evaluate ⟨fun _ => [("x", 5)], 2, fun _ => [], 2⟩ ∧
      ExpressionObservable.evaluate
          (setParameter ⟨fun _ => [("x", 5)], 2, fun _ => [], 2⟩ 1 "x" 9)
          ⟨"o", 0, 0, [], some (.boundObservableRef
            ⟨"x", 0, fun pm => ((pm.lookup "x").getD 0)⟩)⟩ =
        ExpressionObservable.evaluate ⟨fun _ => [("x", 5)], 2, fun _ => [], 2⟩
          ⟨"o", 0, 0, [], some (.boundObservableRef
            ⟨"x", 0, fun pm => ((pm.lookup "x").getD 0)⟩)⟩ :=
  claim_C2 (fun _ _ _ _ _ => none) ⟨fun _ => [("x", 5)], 1, fun _ => [], 1⟩
    ⟨fun _ => [("x", 5)], 2, fun _ => [], 2⟩
    ⟨"o", 0, 0, [], some (.boundObservableRef
      ⟨"x", 0, fun pm => ((pm.lookup "x").getD 0)⟩)⟩
    (.boundObservableRef ⟨"x", 0, fun pm => ((pm.lookup "x").getD 0)⟩)
    0 1 "x" "x" 7 9 rfl rfl (by decide) (by decide)

/-- The parse of the mass-ratio expression text of the observable test. -/
theorem parse_ratio_eq :
    parseExpression "<<mass::mu>> / <<mass::tau>>" =
      .ok (some (.binary .div (.observableRef "mass::mu" [] [])
        (.observableRef "mass::tau" [] []))) := rfl

/-- C5: parsing `<<mass::mu>> / <<mass::tau>>` and binding it against a
context where the observable `mass::mu` evaluates to `0.105658` and the
observable `mass::tau` evaluates to `1.77682` yields an observable whose
evaluation is `0.059464662` within `1e-5` relative tolerance. -/
theorem claim_C5 (res : Resolver) (w : World) (pid kid : Nat) (h1 h2 : Handle)
    (hr1 : res "mass::mu" pid kid [] [] = some h1)
    (hr2 : res "mass::tau" pid kid [] [] = some h2)
    (hv1 : h1.evaluate w = 105658 / 1000000)
    (hv2 : h2.evaluate w = 177682 / 100000)
    (e : Expression) (o : ExpressionObservable)
    (hp : parseExpression "<<mass::mu>> / <<mass::tau>>" = .ok e)
    (hc : ExpressionObservable.construct res "mass::ratio" pid kid [] e = .ok o) :
    ∃ v : ℚ, o.evaluate w = .ok v ∧
      |v - 59464662 / 1000000000| ≤ 1 / 100000 * (59464662 / 1000000000) := by
  rw [parse_ratio_eq] at hp
  obtain rfl : e = some (.binary .div (.observableRef "mass::mu" [] [])
      (.observableRef "mass::tau" [] [])) := (Except.ok.inj hp).symm
  simp only [ExpressionObservable.construct, ExpressionMaker, mergeOptions,
    List.filter_nil, List.append_nil, List.nil_append, hr1, hr2,
    Except.ok.injEq] at hc
  subst hc
  refine ⟨(105658 / 1000000 : ℚ) / (177682 / 100000), ?_, ?_⟩
  · simp only [ExpressionObservable.evaluate, ExpressionEvaluator, hv1, hv2,
      BinaryOp.apply]
  · rw [abs_le]
    norm_num

/-- Witness for C5: the registry resolves each name to a handle reading the
parameter of the same name from parameter container `0`, whose contents
give `mass::mu = 0.105658` and `mass::tau = 1.77682`. -/
theorem claim_C5_witness :
    ∃ v : ℚ,
      ExpressionObservable.evaluate
          ⟨fun _ => [("mass::mu", 105658 / 1000000), ("mass::tau", 177682 / 100000)],
            1, fun _ => [], 1⟩
          ⟨"mass::ratio", 0, 0, [],
            some (.binary .div
              (.boundObservableRef ⟨"mass::mu", 0,
                fun pm => (pm.lookup "mass::mu").getD 0⟩)
              (.boundObservableRef ⟨"mass::tau", 0,
                fun pm => (pm.lookup "mass::tau").getD 0⟩))⟩ = .ok v ∧
      |v - 59464662 / 1000000000| ≤ 1 / 100000 * (59464662 / 1000000000) :=
  claim_C5
    (fun n p _ _ _ => some ⟨n, p, fun pm => (pm.lookup n).getD 0⟩)
    ⟨fun _ => [("mass::mu", 105658 / 1000000), ("mass::tau", 177682 / 100000)], 1,
      fun _ => [], 1⟩
    0 0
    ⟨"mass::mu", 0, fun pm => (pm.lookup "mass::mu").getD 0⟩
    ⟨"mass::tau", 0, fun pm => (pm.lookup "mass::tau").getD 0⟩
    rfl rfl rfl rfl
    (some (.binary .div (.observableRef "mass::mu" [] [])
      (.observableRef "mass::tau" [] [])))
    ⟨"mass::ratio", 0, 0, [],
      some (.binary .div
        (.boundObservableRef ⟨"mass::mu", 0,
          fun pm => (pm.lookup "mass::mu").getD 0⟩)
        (.boundObservableRef ⟨"mass::tau", 0,
          fun pm => (pm.lookup "mass::tau").getD 0⟩))⟩
    rfl rfl

/-- C6: parsing the expression text with the adjacent two-character
sequence `/*` fails with a `ParsingError`: after the `/` a factor is
expected, the `*` token is not one, and the parser rejects the input
instead of silently ignoring or reinterpreting the sequence. -/
theorem claim_C6 :
    parseExpression "<<mass::mu>> /* <<mass::tau>>" =
      .error (.parsingFailure "malformed expression") := rfl

end Eos
